import Mathlib

/-!
Verification of the PDF-Runsheets-Converter core pipeline
(`src/services/geminiService.ts`): chunking, retrying extraction calls,
CSV fragment merging, and the fill-down correction pass.

Text is modelled as `List Char` (JavaScript strings are sequences of
code units; all relevant operations here are sequence operations).
-/

namespace Runsheets

/-- JavaScript string, modelled as a list of characters. -/
abbrev JStr := List Char

/-- JavaScript `String.prototype.split` with a single-character separator. -/
def splitOnChar (c : Char) : JStr → List JStr
  | [] => [[]]
  | x :: xs =>
    let r := splitOnChar c xs
    if x = c then [] :: r
    else
      match r with
      | [] => [[x]]
      | y :: ys => (x :: y) :: ys

/-- JavaScript `Array.prototype.join` with a single-character separator. -/
def joinChar (c : Char) : List JStr → JStr
  | [] => []
  | [x] => x
  | x :: y :: ys => x ++ c :: joinChar c (y :: ys)

/-- JavaScript `String.prototype.trim`: drop surrounding whitespace. -/
def trimWS (l : JStr) : JStr :=
  ((l.dropWhile Char.isWhitespace).reverse.dropWhile Char.isWhitespace).reverse

/-- JavaScript `String.prototype.toLowerCase` (ASCII range, which is all
the classifier compares). -/
def toLowerJ (l : JStr) : JStr := l.map Char.toLower

/-- JavaScript `String.prototype.includes`: substring search. -/
def hasSubstr (pat : JStr) : JStr → Bool
  | [] => pat.isPrefixOf ([] : JStr)
  | x :: xs => pat.isPrefixOf (x :: xs) || hasSubstr pat xs

/-- `MAX_RETRIES` from the source. -/
def MAX_RETRIES : Nat := 3

/-- `INITIAL_RETRY_DELAY_MS` from the source. -/
def INITIAL_RETRY_DELAY_MS : Nat := 1000

/-- `CHUNK_SIZE` from the source (pages per chunk). -/
def CHUNK_SIZE : Nat := 20

/-- The transient-error classification in `callGeminiWithRetry`:
`errorMessage.includes('internal') || errorMessage.includes('500')`
on the lowercased message. -/
def isTransient (msg : JStr) : Bool :=
  hasSubstr ("internal".toList) (toLowerJ msg) || hasSubstr ("500".toList) (toLowerJ msg)

/-- The first replacement of the success path,
`text.replace(/^```(?:csv)?\n?/, '')`: the `if` chain mirrors the greedy
alternatives of the anchored regex. -/
def stripLeadFence (t : JStr) : JStr :=
  if ("```csv\n".toList).isPrefixOf t then t.drop 7
  else if ("```csv".toList).isPrefixOf t then t.drop 6
  else if ("```\n".toList).isPrefixOf t then t.drop 4
  else if ("```".toList).isPrefixOf t then t.drop 3
  else t

/-- The second replacement of the success path,
`.replace(/```$/, '')`: drop a trailing triple backtick at the very end. -/
def stripTrailFence (u : JStr) : JStr :=
  if ("```".toList).isSuffixOf u then u.take (u.length - 3) else u

/-- The code-fence stripping applied to a successful response:
`text.replace(/^```(?:csv)?\n?/, '').replace(/```$/, '').trim()`. -/
def stripFence (t : JStr) : JStr :=
  trimWS (stripTrailFence (stripLeadFence t))

/-- The two error kinds `callGeminiWithRetry` can raise: the
"model is busy" error and the "failed to convert a page" error. -/
inductive GemFail
  | serviceBusy
  | extractionFailed
deriving DecidableEq

/-- The final error classification after the retry loop exits:
transient last error gives the busy error, anything else the failed error. -/
def classifyFinalError (msg : JStr) : GemFail :=
  if isTransient msg then .serviceBusy else .extractionFailed

/-- Observable outcome of one `callGeminiWithRetry` invocation: how many
model calls were made, which backoff delays were awaited, and the result. -/
structure RetryResult where
  calls : Nat
  delays : List Nat
  out : Except GemFail JStr

/-- The retry loop of `callGeminiWithRetry`, starting at a given attempt
index. `respond attempt` is the model's behaviour on that attempt: either
a response text or an error message. -/
def runRetryFrom (respond : Nat → Except JStr JStr) (attempt : Nat) : RetryResult :=
  if h : attempt < MAX_RETRIES then
    match respond attempt with
    | .ok text => ⟨1, [], .ok (stripFence text)⟩
    | .error msg =>
      if isTransient msg then
        if attempt < MAX_RETRIES - 1 then
          let rest := runRetryFrom respond (attempt + 1)
          ⟨rest.calls + 1, INITIAL_RETRY_DELAY_MS * 2 ^ attempt :: rest.delays, rest.out⟩
        else ⟨1, [], .error (classifyFinalError msg)⟩
      else ⟨1, [], .error (classifyFinalError msg)⟩
  else ⟨0, [], .error .extractionFailed⟩
termination_by MAX_RETRIES - attempt
decreasing_by simp [MAX_RETRIES] at h ⊢; omega

/-- `callGeminiWithRetry` from the source: the retry loop started at
attempt 0. -/
def callGeminiWithRetry (respond : Nat → Except JStr JStr) : RetryResult :=
  runRetryFrom respond 0

/-- The header regex `/^"Date","Run Num"/i` applied to a line:
case-insensitive prefix match of the literal pattern. -/
def headerRegexTest (line : JStr) : Bool :=
  (toLowerJ ("\"Date\",\"Run Num\"".toList)).isPrefixOf (toLowerJ line)

/-- Per-fragment line extraction in the merge step:
`chunkCsv.split('\n').filter(line => line.trim() !== '')`. -/
def fragLines (chunkCsv : JStr) : List JStr :=
  (splitOnChar '\n' chunkCsv).filter (fun line => !(trimWS line).isEmpty)

/-- One iteration of the `csvChunkResults.forEach((chunkCsv, index) => ...)`
merge loop: the lines this fragment contributes to `finalCsvLines`. -/
def mergeStep (index : Nat) (chunkCsv : JStr) : List JStr :=
  let lines := fragLines chunkCsv
  if lines.isEmpty then []
  else if index = 0 then lines
  else
    match lines with
    | [] => []
    | l0 :: rest => if headerRegexTest l0 then rest else l0 :: rest

/-- List elements paired with their `forEach` indices, starting at `n`. -/
def enumFromN (n : Nat) : List JStr → List (Nat × JStr)
  | [] => []
  | x :: xs => (n, x) :: enumFromN (n + 1) xs

/-- The merge phase of `convertPdfToCsv`: build `finalCsvLines` from the
ordered chunk results. -/
def mergeFragments (frags : List JStr) : List JStr :=
  ((enumFromN 0 frags).map (fun p => mergeStep p.1 p.2)).flatten

/-- A row during fill-down correction: a comma-split line. -/
abbrev Row := List JStr

/-- The `unquote` helper of `applyFillDownLogic`:
`s?.trim().replace(/^"|"$/g, '') || ''` (an out-of-range read is modelled
as the empty string, which unquotes to the empty string exactly as
JavaScript's `undefined` does). -/
def unquote (s : JStr) : JStr :=
  let t := trimWS s
  let t1 := match t with | '"' :: r => r | _ => t
  match t1.reverse with
  | '"' :: r => r.reverse
  | _ => t1

/-- JavaScript array index assignment `arr[i] = v`: pads with empty
strings (holes, which read back and join exactly like empty strings)
when `i` is beyond the current length. -/
def setPad : Row → Nat → JStr → Row
  | [], 0, v => [v]
  | [], Nat.succ i, v => ([] : JStr) :: setPad [] i v
  | _ :: xs, 0, v => v :: xs
  | x :: xs, Nat.succ i, v => x :: setPad xs i v

/-- The body of the fill-down loop for one row pair (`prevRow` is row
`i - 1` after its own correction, `currentRow` is row `i`): the
`currentRunNumber && currentRunNumber === prevRunNumber` guard, the
blank pickup-time/address test, and the guarded double assignment. -/
def processRow (runNumberIndex pickupTimeIndex pickupAddressIndex : Nat)
    (prevRow currentRow : Row) : Row :=
  if prevRow.length ≤ runNumberIndex ∨ currentRow.length ≤ runNumberIndex then currentRow
  else if unquote (currentRow.getD runNumberIndex []) ≠ [] ∧
      unquote (currentRow.getD runNumberIndex []) = unquote (prevRow.getD runNumberIndex []) then
    if unquote (currentRow.getD pickupTimeIndex []) = [] ∨
        unquote (currentRow.getD pickupAddressIndex []) = [] then
      if max pickupTimeIndex pickupAddressIndex < prevRow.length then
        setPad (setPad currentRow pickupTimeIndex (prevRow.getD pickupTimeIndex []))
          pickupAddressIndex (prevRow.getD pickupAddressIndex [])
      else currentRow
    else currentRow
  else currentRow

/-- The fill-down loop over the data rows (`for (let i = 1; ...)`):
each row is corrected against the already-corrected previous row,
mirroring the in-place mutation of `dataRows`. -/
def fillGo (r t a : Nat) : List Row → Row → List Row
  | [], _ => []
  | c :: cs, p =>
    let c' := processRow r t a p c
    c' :: fillGo r t a cs c'

/-- JavaScript `Array.prototype.indexOf` on the unquoted header cells. -/
def indexOfName (name : JStr) : List JStr → Option Nat
  | [] => none
  | x :: xs => if x = name then some 0 else (indexOfName name xs).map (· + 1)

/-- The main path of `applyFillDownLogic` once all three column indices
were found: split the data lines, run the fill-down loop, re-join. -/
def applyFillDownCore (runIdx timeIdx addrIdx : Nat) (hdr : JStr)
    (dataLines : List JStr) : List JStr :=
  match dataLines.map (splitOnChar ',') with
  | [] => hdr :: []
  | r0 :: rest => hdr :: ((r0 :: fillGo runIdx timeIdx addrIdx rest r0).map (joinChar ','))

/-- The unquoted comma-split of the header line, used for the column
look-ups of `applyFillDownLogic`. -/
def headerCells (hdr : JStr) : List JStr :=
  (splitOnChar ',' hdr).map unquote

/-- `applyFillDownLogic` from the source. -/
def applyFillDownLogic (csvLines : List JStr) : List JStr :=
  if csvLines.length ≤ 1 then csvLines
  else
    match csvLines with
    | [] => csvLines
    | hdr :: dataLines =>
      match indexOfName ("Run Num".toList) (headerCells hdr),
            indexOfName ("Pick Up Time".toList) (headerCells hdr),
            indexOfName ("Pickup Address".toList) (headerCells hdr) with
      | some runIdx, some timeIdx, some addrIdx =>
        applyFillDownCore runIdx timeIdx addrIdx hdr dataLines
      | _, _, _ => csvLines

/-- The chunking loop of `convertPdfToCsv`
(`for (let i = 0; i < pageCount; i += CHUNK_SIZE)`): the page ranges
`[startPage, endPage)` of the produced sub-documents. -/
def chunkLoop (pageCount i : Nat) : List (Nat × Nat) :=
  if h : i < pageCount then
    (i, min (i + CHUNK_SIZE) pageCount) :: chunkLoop pageCount (i + CHUNK_SIZE)
  else []
termination_by pageCount - i
decreasing_by simp [CHUNK_SIZE]; omega

/-- The classified errors the pipeline can surface. -/
inductive PipeError
  | invalidDocument
  | serviceBusy
  | extractionFailed
  | emptyResult
deriving DecidableEq

/-- Lift a retry-loop failure into the pipeline error taxonomy. -/
def liftGemFail : GemFail → PipeError
  | .serviceBusy => .serviceBusy
  | .extractionFailed => .extractionFailed

/-- Outcome of the per-chunk extraction loop: number of
`callGeminiWithRetry` invocations and either the collected non-empty
fragments (`csvChunkResults`) or the first failure. -/
structure ChunksResult where
  clientCalls : Nat
  out : Except GemFail (List JStr)

/-- The sequential per-chunk extraction loop of `convertPdfToCsv`:
each chunk is sent through `callGeminiWithRetry`; a non-empty result is
pushed onto `csvChunkResults`; a failure aborts the pipeline.
`respond j` is the model's behaviour on chunk `j`. -/
def runChunks (respond : Nat → Nat → Except JStr JStr) :
    List (Nat × Nat) → Nat → ChunksResult
  | [], _ => ⟨0, .ok []⟩
  | _ :: rest, j =>
    match (callGeminiWithRetry (respond j)).out with
    | .error e => ⟨1, .error e⟩
    | .ok chunkCsv =>
      match runChunks respond rest (j + 1) with
      | ⟨n, .error e⟩ => ⟨n + 1, .error e⟩
      | ⟨n, .ok frags⟩ =>
        ⟨n + 1, .ok (if chunkCsv.isEmpty then frags else chunkCsv :: frags)⟩

/-- Observable outcome of one `convertPdfToCsv` invocation. -/
structure PipeResult where
  clientCalls : Nat
  out : Except PipeError JStr

/-- `convertPdfToCsv` from the source, over a document with
`pageCount` pages and model behaviour `respond` (chunk index → attempt
index → response). The PDF bytes themselves never influence the core
logic; only the page count drives control flow. -/
def convertPdfToCsv (pageCount : Nat) (respond : Nat → Nat → Except JStr JStr) :
    PipeResult :=
  if pageCount = 0 then ⟨0, .error .invalidDocument⟩
  else
    match runChunks respond (chunkLoop pageCount 0) 0 with
    | ⟨calls, .error e⟩ => ⟨calls, .error (liftGemFail e)⟩
    | ⟨calls, .ok csvChunkResults⟩ =>
      if (mergeFragments csvChunkResults).length < 2 then ⟨calls, .error .emptyResult⟩
      else ⟨calls, .ok (joinChar '\n' (applyFillDownLogic (mergeFragments csvChunkResults)))⟩

/-- Modelled from the spec: a subsequent fragment's contribution to the
merge — its first line is dropped exactly when it matches the header
pattern. -/
def csvMergerSpecTail (f : JStr) : List JStr :=
  match fragLines f with
  | [] => []
  | l0 :: ls => if headerRegexTest l0 then ls else l0 :: ls

/-- Modelled from the spec: the CsvMerger contract. The first fragment
keeps all its (non-whitespace) lines; every subsequent fragment drops its
first line exactly when that line matches the header pattern. -/
def csvMergerSpec (frags : List JStr) : List JStr :=
  match frags with
  | [] => []
  | first :: rest => fragLines first ++ (rest.map csvMergerSpecTail).flatten

/-- Modelled from the spec: strip the opening fence incrementally — a
leading triple-backtick delimiter, then an optional csv language tag,
then the newline that closes the opening fence. -/
def specOpenStrip (t : JStr) : JStr :=
  if ("```".toList).isPrefixOf t then
    if ("csv".toList).isPrefixOf (t.drop 3) then
      if ("\n".toList).isPrefixOf ((t.drop 3).drop 3) then ((t.drop 3).drop 3).drop 1
      else (t.drop 3).drop 3
    else
      if ("\n".toList).isPrefixOf (t.drop 3) then (t.drop 3).drop 1
      else t.drop 3
  else t

/-- Modelled from the spec: strip a trailing triple-backtick delimiter. -/
def specCloseStrip (u : JStr) : JStr :=
  if ("```".toList).isSuffixOf u then u.take (u.length - 3) else u

/-- Modelled from the spec: the success post-processing of the
ExtractionClient — surrounding code-fence markup removed (leading and
trailing triple-backtick delimiters, optional csv tag) and surrounding
whitespace stripped. -/
def specFenceStrip (t : JStr) : JStr :=
  trimWS (specCloseStrip (specOpenStrip t))

/-! ### Split / join facts -/

theorem splitOnChar_ne_nil (c : Char) (s : JStr) : splitOnChar c s ≠ [] := by
  induction s with
  | nil => simp [splitOnChar]
  | cons x xs ih =>
    simp only [splitOnChar]
    split
    · simp
    · split <;> simp

theorem not_mem_of_mem_splitOnChar (c : Char) (s f : JStr)
    (hf : f ∈ splitOnChar c s) : c ∉ f := by
  induction s generalizing f with
  | nil =>
    simp [splitOnChar] at hf
    simp [hf]
  | cons x xs ih =>
    simp only [splitOnChar] at hf
    by_cases hx : x = c
    · rw [if_pos hx] at hf
      rcases List.mem_cons.mp hf with h | h
      · simp [h]
      · exact ih f h
    · rw [if_neg hx] at hf
      rcases hrec : splitOnChar c xs with _ | ⟨y, ys⟩
      · exact absurd hrec (splitOnChar_ne_nil c xs)
      · rw [hrec] at hf
        rcases List.mem_cons.mp hf with h | h
        · subst h
          intro hc
          rcases List.mem_cons.mp hc with h | h
          · exact hx h.symm
          · exact ih y (by rw [hrec]; simp) h
        · exact ih f (by rw [hrec]; simp [h])

theorem splitOnChar_no_sep (c : Char) (x : JStr) (hx : c ∉ x) :
    splitOnChar c x = [x] := by
  induction x with
  | nil => simp [splitOnChar]
  | cons a as ih =>
    have hac : ¬(a = c) := fun h => hx (by simp [h])
    have has : c ∉ as := fun h => hx (by simp [h])
    simp only [splitOnChar, ih has, if_neg hac]

theorem splitOnChar_append_sep (c : Char) (x rest : JStr) (hx : c ∉ x) :
    splitOnChar c (x ++ c :: rest) = x :: splitOnChar c rest := by
  induction x with
  | nil => simp [splitOnChar]
  | cons a as ih =>
    have hac : ¬(a = c) := fun h => hx (by simp [h])
    have has : c ∉ as := fun h => hx (by simp [h])
    simp only [List.cons_append, splitOnChar, List.append_eq, ih has, if_neg hac]

theorem splitOnChar_joinChar (c : Char) :
    ∀ l : List JStr, l ≠ [] → (∀ f ∈ l, c ∉ f) →
      splitOnChar c (joinChar c l) = l
  | [], h, _ => absurd rfl h
  | [x], _, hf => by
    simp only [joinChar]
    exact splitOnChar_no_sep c x (hf x (by simp))
  | x :: y :: ys, _, hf => by
    show splitOnChar c (x ++ c :: joinChar c (y :: ys)) = _
    rw [splitOnChar_append_sep c x _ (hf x (by simp)),
      splitOnChar_joinChar c (y :: ys) (by simp)
        (fun f hf' => hf f (List.mem_cons.mpr (Or.inr hf')))]

/-! ### `setPad` facts -/

theorem setPad_length : ∀ (l : Row) (i : Nat) (v : JStr),
    (setPad l i v).length = max l.length (i + 1)
  | [], 0, v => by simp [setPad]
  | [], i + 1, v => by
    simp [setPad, setPad_length [] i v]
  | _ :: xs, 0, v => by
    simp [setPad]
  | x :: xs, i + 1, v => by
    simp [setPad, setPad_length xs i v]
    omega

theorem setPad_getD_self : ∀ (l : Row) (i : Nat) (v : JStr),
    (setPad l i v).getD i [] = v
  | [], 0, v => by simp [setPad]
  | [], i + 1, v => by
    simp only [setPad, List.getD_cons_succ]
    exact setPad_getD_self [] i v
  | _ :: xs, 0, v => by simp [setPad]
  | x :: xs, i + 1, v => by
    simp only [setPad, List.getD_cons_succ]
    exact setPad_getD_self xs i v

theorem setPad_getD_ne : ∀ (l : Row) (i : Nat) (v : JStr) (j : Nat), j ≠ i →
    (setPad l i v).getD j [] = l.getD j []
  | [], 0, v, 0, h => absurd rfl h
  | [], 0, v, j + 1, _ => by simp [setPad]
  | [], i + 1, v, 0, _ => by simp [setPad]
  | [], i + 1, v, j + 1, h => by
    simp only [setPad, List.getD_cons_succ]
    exact setPad_getD_ne [] i v j (fun hj => h (by rw [hj]))
  | _ :: xs, 0, v, 0, h => absurd rfl h
  | _ :: xs, 0, v, j + 1, _ => by simp [setPad]
  | x :: xs, i + 1, v, 0, _ => by simp [setPad]
  | x :: xs, i + 1, v, j + 1, h => by
    simp only [setPad, List.getD_cons_succ]
    exact setPad_getD_ne xs i v j (fun hj => h (by rw [hj]))

theorem setPad_eq_self : ∀ (l : Row) (i : Nat) (v : JStr), i < l.length →
    l.getD i [] = v → setPad l i v = l
  | [], i, v, h, _ => absurd h (by simp)
  | x :: xs, 0, v, _, hv => by
    simp only [List.getD_cons_zero] at hv
    simp [setPad, hv]
  | x :: xs, i + 1, v, h, hv => by
    simp only [List.getD_cons_succ] at hv
    simp [setPad, setPad_eq_self xs i v (by simpa using h) hv]

theorem mem_setPad : ∀ (l : Row) (i : Nat) (v : JStr) (y : JStr),
    y ∈ setPad l i v → y ∈ l ∨ y = v ∨ y = []
  | [], 0, v, y, h => by
    simp [setPad] at h
    simp [h]
  | [], i + 1, v, y, h => by
    simp only [setPad, List.mem_cons] at h
    rcases h with h | h
    · simp [h]
    · rcases mem_setPad [] i v y h with h' | h' | h' <;> simp_all
  | x :: xs, 0, v, y, h => by
    simp only [setPad, List.mem_cons] at h
    rcases h with h | h <;> simp_all
  | x :: xs, i + 1, v, y, h => by
    simp only [setPad, List.mem_cons] at h
    rcases h with h | h
    · simp [h]
    · rcases mem_setPad xs i v y h with h' | h' | h' <;> simp_all

theorem setPad_ne_nil (l : Row) (i : Nat) (v : JStr) : setPad l i v ≠ [] := by
  have := setPad_length l i v
  intro h
  rw [h] at this
  simp at this
  omega

/-! ### Fill-down row facts -/

/-- A well-formed row during correction: non-empty, and no field
contains the separator (true of every comma-split line, and preserved
by the correction). -/
def goodRow (row : Row) : Prop := row ≠ [] ∧ ∀ f ∈ row, ',' ∉ f

theorem goodRow_split (s : JStr) : goodRow (splitOnChar ',' s) :=
  ⟨splitOnChar_ne_nil ',' s, fun f hf => not_mem_of_mem_splitOnChar ',' s f hf⟩

theorem processRow_short (r t a : Nat) (p c : Row)
    (h : p.length ≤ r ∨ c.length ≤ r) : processRow r t a p c = c := by
  unfold processRow
  rw [if_pos h]

theorem processRow_cases (r t a : Nat) (p c : Row) :
    processRow r t a p c = c ∨
      (processRow r t a p c =
          setPad (setPad c t (p.getD t [])) a (p.getD a []) ∧
        r < p.length ∧ r < c.length ∧ max t a < p.length ∧
        unquote (c.getD r []) ≠ [] ∧
        unquote (c.getD r []) = unquote (p.getD r [])) := by
  unfold processRow
  split_ifs with h1 h2 h3 h4
  · exact Or.inl rfl
  · push_neg at h1
    exact Or.inr ⟨rfl, by omega, by omega, h4, h2.1, h2.2⟩
  · exact Or.inl rfl
  · exact Or.inl rfl
  · exact Or.inl rfl

theorem processRow_good (r t a : Nat) (p c : Row)
    (hp : goodRow p) (hc : goodRow c) : goodRow (processRow r t a p c) := by
  rcases processRow_cases r t a p c with h | ⟨h, _, _, hcov, _, _⟩
  · rw [h]; exact hc
  · rw [h]
    refine ⟨setPad_ne_nil _ _ _, fun f hf => ?_⟩
    rcases mem_setPad _ _ _ _ hf with h' | h' | h'
    · rcases mem_setPad _ _ _ _ h' with h'' | h'' | h''
      · exact hc.2 f h''
      · subst h''
        have ht : t < p.length := by omega
        rw [List.getD_eq_getElem p [] ht]
        exact hp.2 _ (List.getElem_mem ht)
      · simp [h'']
    · subst h'
      have ha : a < p.length := by omega
      rw [List.getD_eq_getElem p [] ha]
      exact hp.2 _ (List.getElem_mem ha)
    · simp [h']

theorem processRow_idem (r t a : Nat) (hrt : r ≠ t) (hra : r ≠ a) (hta : t ≠ a)
    (p c : Row) : processRow r t a p (processRow r t a p c) = processRow r t a p c := by
  rcases processRow_cases r t a p c with h | ⟨h, hrp, hrc, hcov, hrun, hrun2⟩
  · rw [h]
    exact h
  · rw [h]
    set c' := setPad (setPad c t (p.getD t [])) a (p.getD a []) with hc'
    have hlen : c'.length = max (max c.length (t + 1)) (a + 1) := by
      rw [hc', setPad_length, setPad_length]
    have hc'r : c'.getD r [] = c.getD r [] := by
      rw [hc', setPad_getD_ne _ _ _ _ hra, setPad_getD_ne _ _ _ _ hrt]
    have hc't : c'.getD t [] = p.getD t [] := by
      rw [hc', setPad_getD_ne _ _ _ _ hta, setPad_getD_self]
    have hc'a : c'.getD a [] = p.getD a [] := by
      rw [hc', setPad_getD_self]
    unfold processRow
    rw [if_neg (by omega), hc'r, if_pos ⟨hrun, hrun2⟩]
    split_ifs with h3
    · rw [← hc't, ← hc'a]
      rw [setPad_eq_self c' t _ (by omega) rfl]
      rw [setPad_eq_self c' a _ (by omega) rfl]
    · rfl

/-! ### Fill-down loop facts -/

theorem fillGo_good (r t a : Nat) :
    ∀ (cs : List Row) (p : Row), goodRow p → (∀ x ∈ cs, goodRow x) →
      ∀ x ∈ fillGo r t a cs p, goodRow x
  | [], _, _, _, x, hx => absurd hx (by simp [fillGo])
  | c :: cs, p, hp, hcs, x, hx => by
    simp only [fillGo, List.mem_cons] at hx
    have hc' : goodRow (processRow r t a p c) :=
      processRow_good r t a p c hp (hcs c (by simp))
    rcases hx with h | h
    · rw [h]; exact hc'
    · exact fillGo_good r t a cs (processRow r t a p c) hc'
        (fun x hx => hcs x (by simp [hx])) x h

theorem fillGo_idem (r t a : Nat) (hrt : r ≠ t) (hra : r ≠ a) (hta : t ≠ a) :
    ∀ (cs : List Row) (p : Row),
      fillGo r t a (fillGo r t a cs p) p = fillGo r t a cs p
  | [], _ => rfl
  | c :: cs, p => by
    simp only [fillGo]
    rw [processRow_idem r t a hrt hra hta p c]
    rw [fillGo_idem r t a hrt hra hta cs (processRow r t a p c)]

/-! ### Header index facts -/

theorem indexOfName_get (n : JStr) :
    ∀ (l : List JStr) (i : Nat), indexOfName n l = some i →
      ∃ h : i < l.length, l.get ⟨i, h⟩ = n
  | [], i, h => by simp [indexOfName] at h
  | x :: xs, i, h => by
    by_cases hx : x = n
    · simp only [indexOfName, if_pos hx, Option.some.injEq] at h
      subst h
      refine ⟨by simp, ?_⟩
      simpa using hx
    · simp only [indexOfName, if_neg hx] at h
      rcases hmap : indexOfName n xs with _ | j
      · rw [hmap] at h
        simp at h
      · rw [hmap] at h
        simp only [Option.map_some', Option.some.injEq] at h
        subst h
        obtain ⟨hjl, hget⟩ := indexOfName_get n xs j hmap
        exact ⟨by simpa using hjl, hget⟩

theorem indexOfName_inj (n1 n2 : JStr) (l : List JStr) (i : Nat)
    (h1 : indexOfName n1 l = some i) (h2 : indexOfName n2 l = some i) :
    n1 = n2 := by
  obtain ⟨hl1, hg1⟩ := indexOfName_get n1 l i h1
  obtain ⟨hl2, hg2⟩ := indexOfName_get n2 l i h2
  rw [← hg1, ← hg2]

/-! ### `applyFillDownLogic` facts -/

theorem applyFillDownLogic_short {L : List JStr} (h : L.length ≤ 1) :
    applyFillDownLogic L = L := by
  unfold applyFillDownLogic
  rw [if_pos h]

theorem applyFillDown_noIdx (hdr : JStr) (d : List JStr)
    (h : indexOfName ("Run Num".toList) (headerCells hdr) = none ∨
         indexOfName ("Pick Up Time".toList) (headerCells hdr) = none ∨
         indexOfName ("Pickup Address".toList) (headerCells hdr) = none) :
    applyFillDownLogic (hdr :: d) = hdr :: d := by
  by_cases hl : (hdr :: d).length ≤ 1
  · exact applyFillDownLogic_short hl
  · unfold applyFillDownLogic
    rw [if_neg hl]
    rcases h1 : indexOfName ("Run Num".toList) (headerCells hdr) with _ | r <;>
      rcases h2 : indexOfName ("Pick Up Time".toList) (headerCells hdr) with _ | t <;>
        rcases h3 : indexOfName ("Pickup Address".toList) (headerCells hdr) with _ | a <;>
          simp_all

theorem applyFillDown_eq_core (hdr : JStr) (dataLines : List JStr) (hne : dataLines ≠ [])
    (r t a : Nat)
    (h1 : indexOfName ("Run Num".toList) (headerCells hdr) = some r)
    (h2 : indexOfName ("Pick Up Time".toList) (headerCells hdr) = some t)
    (h3 : indexOfName ("Pickup Address".toList) (headerCells hdr) = some a) :
    applyFillDownLogic (hdr :: dataLines) = applyFillDownCore r t a hdr dataLines := by
  have hl : ¬((hdr :: dataLines).length ≤ 1) := by
    rcases dataLines with _ | ⟨x, xs⟩
    · exact absurd rfl hne
    · simp
  unfold applyFillDownLogic
  rw [if_neg hl]
  simp only [h1, h2, h3]

theorem map_splitJoin (rows : List Row) (hgood : ∀ x ∈ rows, goodRow x) :
    (rows.map (joinChar ',')).map (splitOnChar ',') = rows := by
  rw [List.map_map]
  have hcong : ∀ x ∈ rows, (splitOnChar ',' ∘ joinChar ',') x = id x := by
    intro x hx
    simp only [Function.comp_apply, id_eq]
    exact splitOnChar_joinChar ',' x (hgood x hx).1 (hgood x hx).2
  rw [List.map_congr_left hcong, List.map_id]

theorem fillDown_idem (L : List JStr) :
    applyFillDownLogic (applyFillDownLogic L) = applyFillDownLogic L := by
  by_cases hl : L.length ≤ 1
  · rw [applyFillDownLogic_short hl, applyFillDownLogic_short hl]
  · rcases L with _ | ⟨hdr, dataLines⟩
    · simp at hl
    · have hne : dataLines ≠ [] := by
        intro hd
        rw [hd] at hl
        simp at hl
      rcases h1 : indexOfName ("Run Num".toList) (headerCells hdr) with _ | r
      · rw [applyFillDown_noIdx hdr dataLines (Or.inl h1),
          applyFillDown_noIdx hdr dataLines (Or.inl h1)]
      rcases h2 : indexOfName ("Pick Up Time".toList) (headerCells hdr) with _ | t
      · rw [applyFillDown_noIdx hdr dataLines (Or.inr (Or.inl h2)),
          applyFillDown_noIdx hdr dataLines (Or.inr (Or.inl h2))]
      rcases h3 : indexOfName ("Pickup Address".toList) (headerCells hdr) with _ | a
      · rw [applyFillDown_noIdx hdr dataLines (Or.inr (Or.inr h3)),
          applyFillDown_noIdx hdr dataLines (Or.inr (Or.inr h3))]
      have hrt : r ≠ t := by
        intro hEq
        have := indexOfName_inj _ _ _ r h1 (by rw [hEq]; exact h2)
        exact absurd this (by decide)
      have hra : r ≠ a := by
        intro hEq
        have := indexOfName_inj _ _ _ r h1 (by rw [hEq]; exact h3)
        exact absurd this (by decide)
      have hta : t ≠ a := by
        intro hEq
        have := indexOfName_inj _ _ _ t h2 (by rw [hEq]; exact h3)
        exact absurd this (by decide)
      rw [applyFillDown_eq_core hdr dataLines hne r t a h1 h2 h3]
      rcases dataLines with _ | ⟨l0, lrest⟩
      · exact absurd rfl hne
      have hcore : applyFillDownCore r t a hdr (l0 :: lrest)
          = hdr :: ((splitOnChar ',' l0 ::
              fillGo r t a (lrest.map (splitOnChar ',')) (splitOnChar ',' l0)).map
                (joinChar ',')) := by
        unfold applyFillDownCore
        rw [List.map_cons]
      rw [hcore]
      set d0 := splitOnChar ',' l0 with hd0
      set drest := lrest.map (splitOnChar ',') with hdrest
      have hgood : ∀ x ∈ d0 :: fillGo r t a drest d0, goodRow x := by
        intro x hx
        rcases List.mem_cons.mp hx with h | h
        · rw [h, hd0]
          exact goodRow_split l0
        · refine fillGo_good r t a drest d0 (by rw [hd0]; exact goodRow_split l0) ?_ x h
          intro y hy
          rw [hdrest] at hy
          obtain ⟨s, hs, rfl⟩ := List.mem_map.mp hy
          exact goodRow_split s
      rw [applyFillDown_eq_core hdr
        (((d0 :: fillGo r t a drest d0).map (joinChar ','))) (by simp) r t a h1 h2 h3]
      have hsplit : (((d0 :: fillGo r t a drest d0).map (joinChar ','))).map
          (splitOnChar ',') = d0 :: fillGo r t a drest d0 :=
        map_splitJoin _ hgood
      unfold applyFillDownCore
      rw [hsplit]
      show hdr :: List.map (joinChar ',') (d0 :: fillGo r t a (fillGo r t a drest d0) d0)
        = hdr :: List.map (joinChar ',') (d0 :: fillGo r t a drest d0)
      rw [fillGo_idem r t a hrt hra hta drest d0]

/-! ### Merge facts -/

theorem mergeStep_zero (f : JStr) : mergeStep 0 f = fragLines f := by
  unfold mergeStep
  rcases h : fragLines f with _ | ⟨l0, ls⟩ <;> simp

theorem mergeStep_pos (n : Nat) (hn : n ≠ 0) (f : JStr) :
    mergeStep n f = csvMergerSpecTail f := by
  unfold mergeStep csvMergerSpecTail
  rcases h : fragLines f with _ | ⟨l0, ls⟩ <;> simp [hn]

theorem enumFromN_merge (fs : List JStr) : ∀ n : Nat, n ≠ 0 →
    ((enumFromN n fs).map (fun p => mergeStep p.1 p.2)).flatten
      = (fs.map csvMergerSpecTail).flatten := by
  induction fs with
  | nil => intro n _; rfl
  | cons f fs ih =>
    intro n hn
    simp only [enumFromN, List.map_cons, List.flatten_cons]
    rw [mergeStep_pos n hn f, ih (n + 1) (by omega)]

theorem mergeFragments_eq_spec (frags : List JStr) :
    mergeFragments frags = csvMergerSpec frags := by
  rcases frags with _ | ⟨f, fs⟩
  · rfl
  · unfold mergeFragments csvMergerSpec
    simp only [enumFromN, List.map_cons, List.flatten_cons]
    rw [mergeStep_zero, enumFromN_merge fs 1 (by omega)]

theorem merged_header_shape (frags : List JStr) (hne : frags ≠ [])
    (hfr : ∀ f ∈ frags, ∃ l0 ls, fragLines f = l0 :: ls ∧
      headerRegexTest l0 = true ∧ ∀ l ∈ ls, headerRegexTest l = false) :
    ∃ l0 rest, mergeFragments frags = l0 :: rest ∧ headerRegexTest l0 = true ∧
      ∀ l ∈ rest, headerRegexTest l = false := by
  rcases frags with _ | ⟨f, fs⟩
  · exact absurd rfl hne
  · obtain ⟨l0, ls, hfl, hh, hrest⟩ := hfr f (by simp)
    rw [mergeFragments_eq_spec]
    have hspec : csvMergerSpec (f :: fs)
        = fragLines f ++ (fs.map csvMergerSpecTail).flatten := rfl
    rw [hspec, hfl]
    refine ⟨l0, ls ++ (fs.map csvMergerSpecTail).flatten, by simp, hh, ?_⟩
    intro l hlmem
    rcases List.mem_append.mp hlmem with h | h
    · exact hrest l h
    · obtain ⟨blk, hblk, hlblk⟩ := List.mem_flatten.mp h
      obtain ⟨f', hf', rfl⟩ := List.mem_map.mp hblk
      obtain ⟨l0', ls', hfl', hh', hrest'⟩ := hfr f' (by simp [hf'])
      unfold csvMergerSpecTail at hlblk
      rw [hfl'] at hlblk
      simp only [hh', if_true] at hlblk
      exact hrest' l hlblk

/-! ### Retry loop facts -/

theorem runRetryFrom_ok (respond : Nat → Except JStr JStr) (att : Nat)
    (h : att < MAX_RETRIES) (t : JStr) (ht : respond att = .ok t) :
    runRetryFrom respond att = ⟨1, [], .ok (stripFence t)⟩ := by
  unfold runRetryFrom
  rw [dif_pos h, ht]

theorem runRetryFrom_stop (respond : Nat → Except JStr JStr) (att : Nat)
    (h : att < MAX_RETRIES) (msg : JStr) (hm : respond att = .error msg)
    (htr : isTransient msg = false) :
    runRetryFrom respond att = ⟨1, [], .error (classifyFinalError msg)⟩ := by
  unfold runRetryFrom
  rw [dif_pos h, hm]
  simp [htr]

theorem runRetryFrom_cont (respond : Nat → Except JStr JStr) (att : Nat)
    (h : att < MAX_RETRIES - 1) (msg : JStr) (hm : respond att = .error msg)
    (htr : isTransient msg = true) :
    runRetryFrom respond att =
      ⟨(runRetryFrom respond (att + 1)).calls + 1,
        INITIAL_RETRY_DELAY_MS * 2 ^ att :: (runRetryFrom respond (att + 1)).delays,
        (runRetryFrom respond (att + 1)).out⟩ := by
  conv_lhs => unfold runRetryFrom
  rw [dif_pos (by unfold MAX_RETRIES at h ⊢; omega), hm]
  simp [htr, h]

theorem runRetryFrom_last (respond : Nat → Except JStr JStr) (msg : JStr)
    (hm : respond 2 = .error msg) (htr : isTransient msg = true) :
    runRetryFrom respond 2 = ⟨1, [], .error (classifyFinalError msg)⟩ := by
  unfold runRetryFrom
  rw [dif_pos (by decide), hm]
  simp only [htr, if_true]
  rw [if_neg (by decide)]

theorem classify_busy_iff (msg : JStr) :
    classifyFinalError msg = .serviceBusy ↔ isTransient msg = true := by
  unfold classifyFinalError
  rcases h : isTransient msg <;> simp [h]

/-- Exhaustive enumeration of the retry loop's observable behaviours:
every invocation is one of six shapes, fixed by the first three attempt
outcomes. -/
theorem runRetry_total (respond : Nat → Except JStr JStr) :
    (∃ t, respond 0 = .ok t ∧
      callGeminiWithRetry respond = ⟨1, [], .ok (stripFence t)⟩) ∨
    (∃ m, respond 0 = .error m ∧ isTransient m = false ∧
      callGeminiWithRetry respond = ⟨1, [], .error (classifyFinalError m)⟩) ∨
    (∃ m t, respond 0 = .error m ∧ isTransient m = true ∧ respond 1 = .ok t ∧
      callGeminiWithRetry respond = ⟨2, [1000], .ok (stripFence t)⟩) ∨
    (∃ m0 m1, respond 0 = .error m0 ∧ isTransient m0 = true ∧
      respond 1 = .error m1 ∧ isTransient m1 = false ∧
      callGeminiWithRetry respond = ⟨2, [1000], .error (classifyFinalError m1)⟩) ∨
    (∃ m0 m1 t, respond 0 = .error m0 ∧ isTransient m0 = true ∧
      respond 1 = .error m1 ∧ isTransient m1 = true ∧ respond 2 = .ok t ∧
      callGeminiWithRetry respond = ⟨3, [1000, 2000], .ok (stripFence t)⟩) ∨
    (∃ m0 m1 m2, respond 0 = .error m0 ∧ isTransient m0 = true ∧
      respond 1 = .error m1 ∧ isTransient m1 = true ∧ respond 2 = .error m2 ∧
      callGeminiWithRetry respond = ⟨3, [1000, 2000], .error (classifyFinalError m2)⟩) := by
  rcases h0 : respond 0 with m0 | t0
  · rcases htr0 : isTransient m0
    · right; left
      exact ⟨m0, rfl, htr0,
        by rw [callGeminiWithRetry, runRetryFrom_stop respond 0 (by decide) m0 h0 htr0]⟩
    · have hc0 := runRetryFrom_cont respond 0 (by decide) m0 h0 htr0
      rcases h1 : respond 1 with m1 | t1
      · rcases htr1 : isTransient m1
        · right; right; right; left
          refine ⟨m0, m1, rfl, htr0, rfl, htr1, ?_⟩
          rw [callGeminiWithRetry, hc0, runRetryFrom_stop respond 1 (by decide) m1 h1 htr1]
          norm_num [INITIAL_RETRY_DELAY_MS]
        · have hc1 := runRetryFrom_cont respond 1 (by decide) m1 h1 htr1
          rcases h2 : respond 2 with m2 | t2
          · right; right; right; right; right
            refine ⟨m0, m1, m2, rfl, htr0, rfl, htr1, rfl, ?_⟩
            have hlast : runRetryFrom respond 2 = ⟨1, [], .error (classifyFinalError m2)⟩ := by
              rcases htr2 : isTransient m2
              · exact runRetryFrom_stop respond 2 (by decide) m2 h2 htr2
              · exact runRetryFrom_last respond m2 h2 htr2
            rw [callGeminiWithRetry, hc0, hc1, hlast]
            norm_num [INITIAL_RETRY_DELAY_MS]
          · right; right; right; right; left
            refine ⟨m0, m1, t2, rfl, htr0, rfl, htr1, rfl, ?_⟩
            rw [callGeminiWithRetry, hc0, hc1, runRetryFrom_ok respond 2 (by decide) t2 h2]
            norm_num [INITIAL_RETRY_DELAY_MS]
      · right; right; left
        refine ⟨m0, t1, rfl, htr0, rfl, ?_⟩
        rw [callGeminiWithRetry, hc0, runRetryFrom_ok respond 1 (by decide) t1 h1]
        norm_num [INITIAL_RETRY_DELAY_MS]
  · left
    exact ⟨t0, rfl,
      by rw [callGeminiWithRetry, runRetryFrom_ok respond 0 (by decide) t0 h0]⟩

theorem retry_calls_le (respond : Nat → Except JStr JStr) :
    (callGeminiWithRetry respond).calls ≤ MAX_RETRIES := by
  rcases runRetry_total respond with ⟨t, _, h⟩ | ⟨m, _, _, h⟩ | ⟨m, t, _, _, _, h⟩ |
    ⟨m0, m1, _, _, _, _, h⟩ | ⟨m0, m1, t, _, _, _, _, _, h⟩ |
    ⟨m0, m1, m2, _, _, _, _, _, h⟩ <;> rw [h] <;> norm_num [MAX_RETRIES]

/-! ### Chunk loop facts -/

theorem chunkLoop_stop (pageCount i : Nat) (h : pageCount ≤ i) :
    chunkLoop pageCount i = [] := by
  unfold chunkLoop
  rw [dif_neg (by omega)]

theorem chunkLoop_go (pageCount i : Nat) (h : i < pageCount) :
    chunkLoop pageCount i
      = (i, min (i + CHUNK_SIZE) pageCount) :: chunkLoop pageCount (i + CHUNK_SIZE) := by
  conv_lhs => unfold chunkLoop
  rw [dif_pos h]

theorem chunkLoop_formula_aux (N : Nat) : ∀ (d i : Nat), N - i ≤ d →
    chunkLoop N i = (List.range ((N - i + CHUNK_SIZE - 1) / CHUNK_SIZE)).map
      (fun k => (i + CHUNK_SIZE * k, min (i + CHUNK_SIZE * k + CHUNK_SIZE) N))
  | 0, i, hle => by
    rw [chunkLoop_stop N i (by omega)]
    have hz : N - i = 0 := by omega
    rw [hz]
    have : (0 + CHUNK_SIZE - 1) / CHUNK_SIZE = 0 := by decide
    rw [this]
    rfl
  | d + 1, i, hle => by
    by_cases hi : i < N
    · rw [chunkLoop_go N i hi,
        chunkLoop_formula_aux N d (i + CHUNK_SIZE) (by simp only [CHUNK_SIZE] at *; omega)]
      have hcount : (N - i + CHUNK_SIZE - 1) / CHUNK_SIZE
          = (N - (i + CHUNK_SIZE) + CHUNK_SIZE - 1) / CHUNK_SIZE + 1 := by
        simp only [CHUNK_SIZE]
        omega
      rw [hcount, List.range_succ_eq_map, List.map_cons, List.map_map]
      congr 1
      apply List.map_congr_left
      intro k hk
      have harith : i + CHUNK_SIZE + CHUNK_SIZE * k = i + CHUNK_SIZE * (k + 1) := by
        rw [Nat.mul_succ]
        omega
      simp only [Function.comp_apply, harith]
    · rw [chunkLoop_stop N i (by omega)]
      have : (N - i + CHUNK_SIZE - 1) / CHUNK_SIZE = 0 := by
        simp only [CHUNK_SIZE]
        omega
      rw [this]
      rfl

theorem chunkLoop_zero_formula (N : Nat) :
    chunkLoop N 0 = (List.range ((N + CHUNK_SIZE - 1) / CHUNK_SIZE)).map
      (fun j => (CHUNK_SIZE * j, min (CHUNK_SIZE * j + CHUNK_SIZE) N)) := by
  have h := chunkLoop_formula_aux N N 0 (by omega)
  simpa using h

/-! ### Chunk-sequencing facts -/

theorem runChunks_all_ok (respond : Nat → Nat → Except JStr JStr) :
    ∀ (ranges : List (Nat × Nat)) (j : Nat) (ts : List JStr),
      ts.length = ranges.length →
      (∀ k (hk : k < ts.length),
        (callGeminiWithRetry (respond (j + k))).out = .ok (ts.get ⟨k, hk⟩)) →
      runChunks respond ranges j = ⟨ranges.length, .ok (ts.filter (fun t => !t.isEmpty))⟩
  | [], j, ts, hlen, _ => by
    have hts : ts = [] := List.eq_nil_of_length_eq_zero (by simpa using hlen)
    subst hts
    rfl
  | c :: rest, j, ts, hlen, hok => by
    rcases ts with _ | ⟨t0, ts'⟩
    · simp at hlen
    · have h0 := hok 0 (by simp)
      rw [show j + 0 = j from by omega] at h0
      have hrec := runChunks_all_ok respond rest (j + 1) ts' (by simpa using hlen)
        (fun k hk => by
          have hk1 := hok (k + 1) (by simpa using hk)
          rw [show j + (k + 1) = j + 1 + k from by omega] at hk1
          simpa using hk1)
      unfold runChunks
      rw [h0, hrec]
      show (⟨rest.length + 1, .ok (if t0.isEmpty then ts'.filter (fun t => !t.isEmpty)
        else t0 :: ts'.filter (fun t => !t.isEmpty))⟩ : ChunksResult) = _
      rcases ht0 : t0.isEmpty <;> simp [List.filter_cons, ht0]

theorem runChunks_calls_ok0 (respond : Nat → Nat → Except JStr JStr)
    (hall : ∀ j, ∃ t, respond j 0 = .ok t) :
    ∀ (ranges : List (Nat × Nat)) (j : Nat),
      ∃ frags, runChunks respond ranges j = ⟨ranges.length, .ok frags⟩
  | [], _ => ⟨[], rfl⟩
  | c :: rest, j => by
    obtain ⟨t, ht⟩ := hall j
    have hcall : (callGeminiWithRetry (respond j)).out = .ok (stripFence t) := by
      rw [callGeminiWithRetry, runRetryFrom_ok (respond j) 0 (by decide) t ht]
    obtain ⟨frags, hrec⟩ := runChunks_calls_ok0 respond hall rest (j + 1)
    refine ⟨if (stripFence t).isEmpty then frags else stripFence t :: frags, ?_⟩
    unfold runChunks
    rw [hcall, hrec]
    rfl

/-! ### Pipeline shape facts -/

theorem convertPdf_zero (respond : Nat → Nat → Except JStr JStr) :
    convertPdfToCsv 0 respond = ⟨0, .error .invalidDocument⟩ := by
  unfold convertPdfToCsv
  rw [if_pos rfl]

theorem convertPdf_err (pageCount : Nat) (respond : Nat → Nat → Except JStr JStr)
    (h : pageCount ≠ 0) (n : Nat) (e : GemFail)
    (hcr : runChunks respond (chunkLoop pageCount 0) 0 = ⟨n, .error e⟩) :
    convertPdfToCsv pageCount respond = ⟨n, .error (liftGemFail e)⟩ := by
  unfold convertPdfToCsv
  rw [if_neg h, hcr]

theorem convertPdf_ok (pageCount : Nat) (respond : Nat → Nat → Except JStr JStr)
    (h : pageCount ≠ 0) (n : Nat) (frags : List JStr)
    (hcr : runChunks respond (chunkLoop pageCount 0) 0 = ⟨n, .ok frags⟩) :
    convertPdfToCsv pageCount respond =
      (if (mergeFragments frags).length < 2 then ⟨n, .error .emptyResult⟩
       else ⟨n, .ok (joinChar '\n' (applyFillDownLogic (mergeFragments frags)))⟩
        : PipeResult) := by
  unfold convertPdfToCsv
  rw [if_neg h, hcr]

/-! ### Fence-stripping facts -/

theorem isPrefixOf_append_eq (p q t : JStr) :
    (p ++ q).isPrefixOf t = (p.isPrefixOf t && q.isPrefixOf (t.drop p.length)) := by
  induction p generalizing t with
  | nil => simp [List.isPrefixOf]
  | cons a as ih =>
    rcases t with _ | ⟨b, bs⟩
    · simp [List.isPrefixOf]
    · simp only [List.cons_append, List.isPrefixOf, List.length_cons,
        List.drop_succ_cons, List.append_eq, ih bs, Bool.and_assoc]

theorem fenceCond1 (t : JStr) : ("```csv\n".toList : JStr).isPrefixOf t
    = (("```".toList : JStr).isPrefixOf t &&
        (("csv".toList : JStr).isPrefixOf (t.drop 3) &&
          ("\n".toList : JStr).isPrefixOf (t.drop 6))) := by
  conv_lhs => rw [show ("```csv\n".toList : JStr)
    = ("```".toList ++ ("csv".toList ++ "\n".toList) : JStr) from by decide]
  rw [isPrefixOf_append_eq, isPrefixOf_append_eq,
    show ("```".toList : JStr).length = 3 from by decide,
    show ("csv".toList : JStr).length = 3 from by decide, List.drop_drop]

theorem fenceCond2 (t : JStr) : ("```csv".toList : JStr).isPrefixOf t
    = (("```".toList : JStr).isPrefixOf t &&
        ("csv".toList : JStr).isPrefixOf (t.drop 3)) := by
  conv_lhs => rw [show ("```csv".toList : JStr)
    = ("```".toList ++ "csv".toList : JStr) from by decide]
  rw [isPrefixOf_append_eq, show ("```".toList : JStr).length = 3 from by decide]

theorem fenceCond3 (t : JStr) : ("```\n".toList : JStr).isPrefixOf t
    = (("```".toList : JStr).isPrefixOf t &&
        ("\n".toList : JStr).isPrefixOf (t.drop 3)) := by
  conv_lhs => rw [show ("```\n".toList : JStr)
    = ("```".toList ++ "\n".toList : JStr) from by decide]
  rw [isPrefixOf_append_eq, show ("```".toList : JStr).length = 3 from by decide]

theorem stripLeadFence_eq_spec (t : JStr) : stripLeadFence t = specOpenStrip t := by
  unfold stripLeadFence specOpenStrip
  rw [fenceCond1, fenceCond2, fenceCond3]
  rcases hA : ("```".toList : JStr).isPrefixOf t <;>
    rcases hC : ("csv".toList : JStr).isPrefixOf (t.drop 3) <;>
      rcases hN1 : ("\n".toList : JStr).isPrefixOf (t.drop 6) <;>
        rcases hN2 : ("\n".toList : JStr).isPrefixOf (t.drop 3) <;>
          simp_all [List.drop_drop]

theorem stripFence_eq_spec (t : JStr) : stripFence t = specFenceStrip t := by
  unfold stripFence specFenceStrip
  rw [stripLeadFence_eq_spec]
  rw [show ∀ u, stripTrailFence u = specCloseStrip u from fun u => rfl]

theorem stripLeadFence_id (t : JStr)
    (hp : ("```".toList : JStr).isPrefixOf t = false) :
    stripLeadFence t = t := by
  unfold stripLeadFence
  rw [fenceCond1, fenceCond2, fenceCond3, hp]
  simp

theorem stripTrailFence_id (u : JStr)
    (hs : ("```".toList : JStr).isSuffixOf u = false) :
    stripTrailFence u = u := by
  unfold stripTrailFence
  rw [hs]
  simp

theorem stripFence_verbatim (t : JStr)
    (hp : ("```".toList : JStr).isPrefixOf t = false)
    (hs : ("```".toList : JStr).isSuffixOf t = false) :
    stripFence t = trimWS t := by
  unfold stripFence
  rw [stripLeadFence_id t hp, stripTrailFence_id t hs]

/-! ### Claim theorems -/

/-- Claim C5: the merge keeps every (non-whitespace) line of the first
fragment in order, and for every subsequent fragment drops the first
line exactly when it matches the header pattern as a case-insensitive
prefix, appending everything in fragment order — i.e. the merge equals
the spec-side CsvMerger contract. -/
theorem claim_C5 (frags : List JStr) : mergeFragments frags = csvMergerSpec frags :=
  mergeFragments_eq_spec frags

/-- Claim C8: the FillDownCorrector is idempotent — applying
`applyFillDownLogic` twice yields the same result as applying it once. -/
theorem claim_C8 (L : List JStr) :
    applyFillDownLogic (applyFillDownLogic L) = applyFillDownLogic L :=
  fillDown_idem L

/-- Claim C2: the extraction client makes at most `MAX_RETRIES` = 3
attempts per chunk; transient failures on attempts 1 and 2 followed by a
success on attempt 3 yield exactly 3 calls with backoff delays of 1000ms
then 2000ms and the fence-stripped text of the successful attempt; a
non-transient failure on attempt 1 yields exactly 1 call. -/
theorem claim_C2 :
    (∀ respond, (callGeminiWithRetry respond).calls ≤ MAX_RETRIES) ∧
    (∀ respond m0 m1 t, respond 0 = .error m0 → isTransient m0 = true →
      respond 1 = .error m1 → isTransient m1 = true → respond 2 = .ok t →
      callGeminiWithRetry respond = ⟨3, [1000, 2000], .ok (stripFence t)⟩) ∧
    (∀ respond m, respond 0 = .error m → isTransient m = false →
      callGeminiWithRetry respond = ⟨1, [], .error .extractionFailed⟩) ∧
    (∀ respond m0 m1, respond 0 = .error m0 → isTransient m0 = true →
      respond 1 = .error m1 → isTransient m1 = false →
      callGeminiWithRetry respond = ⟨2, [1000], .error .extractionFailed⟩) := by
  refine ⟨retry_calls_le, ?_, ?_, ?_⟩
  · intro respond m0 m1 t h0 htr0 h1 htr1 h2
    rw [callGeminiWithRetry, runRetryFrom_cont respond 0 (by decide) m0 h0 htr0,
      runRetryFrom_cont respond 1 (by decide) m1 h1 htr1,
      runRetryFrom_ok respond 2 (by decide) t h2]
    norm_num [INITIAL_RETRY_DELAY_MS]
  · intro respond m h0 htr
    rw [callGeminiWithRetry, runRetryFrom_stop respond 0 (by decide) m h0 htr]
    simp [classifyFinalError, htr]
  · intro respond m0 m1 h0 htr0 h1 htr1
    rw [callGeminiWithRetry, runRetryFrom_cont respond 0 (by decide) m0 h0 htr0,
      runRetryFrom_stop respond 1 (by decide) m1 h1 htr1]
    simp [classifyFinalError, htr1, INITIAL_RETRY_DELAY_MS]

/-- Witness for claim C2: a behaviour failing transiently on attempts 1
and 2 and succeeding on attempt 3 makes exactly 3 calls with delays
1000ms and 2000ms. -/
theorem claim_C2_witness :
    ((fun a => if a < 2 then Except.error ("500".toList) else Except.ok ("x".toList)
        : Nat → Except JStr JStr) 0 = Except.error ("500".toList)) ∧
    isTransient ("500".toList) = true ∧
    ((fun a => if a < 2 then Except.error ("500".toList) else Except.ok ("x".toList)
        : Nat → Except JStr JStr) 1 = Except.error ("500".toList)) ∧
    ((fun a => if a < 2 then Except.error ("500".toList) else Except.ok ("x".toList)
        : Nat → Except JStr JStr) 2 = Except.ok ("x".toList)) ∧
    callGeminiWithRetry
        (fun a => if a < 2 then Except.error ("500".toList) else Except.ok ("x".toList))
      = ⟨3, [1000, 2000], .ok (stripFence ("x".toList))⟩ :=
  ⟨rfl, by decide, rfl, rfl,
    claim_C2.2.1 _ _ _ _ rfl (by decide) rfl (by decide) rfl⟩

/-- Claim C4 (amended): the fill-down step leaves a row untouched when
the row (or its predecessor) does not extend past the Run Num column
index; rows longer than the Run Num index but shorter than the maximal
required index can still be overwritten (see the counterexample), and an
overwrite happens only when the predecessor row covers both the Pick Up
Time and Pickup Address indices. -/
theorem claim_C4_amended (r t a : Nat) (p c : Row) :
    (c.length ≤ r ∨ p.length ≤ r → processRow r t a p c = c) ∧
    (processRow r t a p c ≠ c → r < c.length ∧ r < p.length ∧ max t a < p.length) := by
  constructor
  · intro h
    rcases h with h | h
    · exact processRow_short r t a p c (Or.inr h)
    · exact processRow_short r t a p c (Or.inl h)
  · intro hne
    rcases processRow_cases r t a p c with heq | ⟨_, h1, h2, h3, _, _⟩
    · exact absurd heq hne
    · exact ⟨h2, h1, h3⟩

/-- Counterexample for claim C4 as stated: a data row with 3 fields —
fewer than max(1, 2, 5) + 1 = 6 — is nevertheless overwritten (and
padded) by the fill-down pass. -/
theorem claim_C4_counterexample :
    applyFillDownLogic
        ["Date,Run Num,Pick Up Time,Customer,Customer ID,Pickup Address".toList,
          "d,5,09:00,A,1,Addr".toList, "d,5,x".toList]
      = ["Date,Run Num,Pick Up Time,Customer,Customer ID,Pickup Address".toList,
          "d,5,09:00,A,1,Addr".toList, "d,5,09:00,,,Addr".toList] ∧
    indexOfName ("Run Num".toList)
        (headerCells ("Date,Run Num,Pick Up Time,Customer,Customer ID,Pickup Address".toList))
      = some 1 ∧
    indexOfName ("Pick Up Time".toList)
        (headerCells ("Date,Run Num,Pick Up Time,Customer,Customer ID,Pickup Address".toList))
      = some 2 ∧
    indexOfName ("Pickup Address".toList)
        (headerCells ("Date,Run Num,Pick Up Time,Customer,Customer ID,Pickup Address".toList))
      = some 5 ∧
    (splitOnChar ',' ("d,5,x".toList)).length < max 1 (max 2 5) + 1 ∧
    ("d,5,09:00,,,Addr".toList : JStr) ≠ "d,5,x".toList := by
  decide

/-- Witness for claim C4 (amended): a too-short current row is returned
unchanged, and an actual overwrite implies the predecessor covers both
indices. -/
theorem claim_C4_witness :
    (processRow 0 1 2 (["5".toList, "T".toList, "A".toList]) (["5".toList]) ≠ ["5".toList]) ∧
    (0 < (["5".toList] : Row).length ∧ 0 < (["5".toList, "T".toList, "A".toList] : Row).length ∧
      max 1 2 < (["5".toList, "T".toList, "A".toList] : Row).length) :=
  ⟨by decide, (claim_C4_amended 0 1 2 _ _).2 (by decide)⟩

/-- Claim C1 (amended): when every fragment's first (non-whitespace)
line matches the header pattern and no other fragment line does, the
merged output starts with the first fragment's header line (which
matches the header pattern) and no later merged line matches the header
pattern. Unconditionally the code guarantees neither conjunct (see the
counterexample). -/
theorem claim_C1_amended (frags : List JStr) (hne : frags ≠ [])
    (hfr : ∀ f ∈ frags, ∃ l0 ls, fragLines f = l0 :: ls ∧
      headerRegexTest l0 = true ∧ ∀ l ∈ ls, headerRegexTest l = false) :
    ∃ l0 rest, mergeFragments frags = l0 :: rest ∧ headerRegexTest l0 = true ∧
      ∀ l ∈ rest, headerRegexTest l = false :=
  merged_header_shape frags hne hfr

/-- Counterexample for claim C1 as stated: a single fragment containing
a duplicated header line in its interior merges to an output whose
line 2 still matches the header pattern, violating the claimed
invariant that no line other than line 0 matches it. -/
theorem claim_C1_counterexample :
    mergeFragments ["\"Date\",\"Run Num\"\nA,1\n\"Date\",\"Run Num\"".toList]
      = ["\"Date\",\"Run Num\"".toList, "A,1".toList, "\"Date\",\"Run Num\"".toList] ∧
    headerRegexTest ("\"Date\",\"Run Num\"".toList) = true := by
  constructor
  · rfl
  · decide

/-- Witness for claim C1 (amended): two well-formed fragments (the
second with a lower-case header variant) merge to a single header line
followed by header-free data lines. -/
theorem claim_C1_witness :
    (["\"Date\",\"Run Num\"\nA,1".toList, "\"date\",\"run num\"\nB,2".toList] : List JStr) ≠ [] ∧
    (∀ f ∈ (["\"Date\",\"Run Num\"\nA,1".toList, "\"date\",\"run num\"\nB,2".toList] : List JStr),
      ∃ l0 ls, fragLines f = l0 :: ls ∧ headerRegexTest l0 = true ∧
        ∀ l ∈ ls, headerRegexTest l = false) ∧
    (∃ l0 rest,
      mergeFragments ["\"Date\",\"Run Num\"\nA,1".toList, "\"date\",\"run num\"\nB,2".toList]
        = l0 :: rest ∧
      headerRegexTest l0 = true ∧ ∀ l ∈ rest, headerRegexTest l = false) := by
  have hfr : ∀ f ∈ (["\"Date\",\"Run Num\"\nA,1".toList,
      "\"date\",\"run num\"\nB,2".toList] : List JStr),
      ∃ l0 ls, fragLines f = l0 :: ls ∧ headerRegexTest l0 = true ∧
        ∀ l ∈ ls, headerRegexTest l = false := by
    intro f hf
    simp only [List.mem_cons, List.not_mem_nil, or_false] at hf
    rcases hf with rfl | rfl
    · exact ⟨"\"Date\",\"Run Num\"".toList, ["A,1".toList], rfl, by decide, by decide⟩
    · exact ⟨"\"date\",\"run num\"".toList, ["B,2".toList], rfl, by decide, by decide⟩
  exact ⟨by simp, hfr, claim_C1_amended _ (by simp) hfr⟩

/-- Claim C3: whenever the extraction client ultimately fails, the error
is exactly one of the two public kinds, determined by the transiency of
the last attempt's error message: ServiceBusy iff the message contains
"internal" or "500" (case-insensitively), ExtractionFailed otherwise;
no other (raw) error value can escape. -/
theorem claim_C3 (respond : Nat → Except JStr JStr) (e : GemFail)
    (h : (callGeminiWithRetry respond).out = .error e) :
    (e = GemFail.serviceBusy ∨ e = GemFail.extractionFailed) ∧
    ∃ msg, respond ((callGeminiWithRetry respond).calls - 1) = .error msg ∧
      e = classifyFinalError msg ∧
      (e = GemFail.serviceBusy ↔ isTransient msg = true) := by
  refine ⟨by cases e <;> simp, ?_⟩
  rcases runRetry_total respond with ⟨t, h0, hcase⟩ | ⟨m, h0, htr, hcase⟩ |
    ⟨m, t, h0, htr, h1, hcase⟩ | ⟨m0, m1, h0, htr0, h1, htr1, hcase⟩ |
    ⟨m0, m1, t, h0, htr0, h1, htr1, h2, hcase⟩ |
    ⟨m0, m1, m2, h0, htr0, h1, htr1, h2, hcase⟩
  · rw [hcase] at h
    simp at h
  · rw [hcase] at h
    simp only [Except.error.injEq] at h
    subst h
    refine ⟨m, by rw [hcase]; simpa using h0, rfl, classify_busy_iff m⟩
  · rw [hcase] at h
    simp at h
  · rw [hcase] at h
    simp only [Except.error.injEq] at h
    subst h
    refine ⟨m1, by rw [hcase]; simpa using h1, rfl, classify_busy_iff m1⟩
  · rw [hcase] at h
    simp at h
  · rw [hcase] at h
    simp only [Except.error.injEq] at h
    subst h
    refine ⟨m2, by rw [hcase]; simpa using h2, rfl, classify_busy_iff m2⟩

/-- Witness for claim C3: a non-transient failure surfaces as
ExtractionFailed, classified from the last attempt's message. -/
theorem claim_C3_witness :
    ((callGeminiWithRetry (fun _ => Except.error ("boom".toList))).out
      = Except.error GemFail.extractionFailed) ∧
    ((GemFail.extractionFailed = GemFail.serviceBusy ∨
        GemFail.extractionFailed = GemFail.extractionFailed) ∧
      ∃ msg, (fun _ => Except.error ("boom".toList) : Nat → Except JStr JStr)
          ((callGeminiWithRetry (fun _ => Except.error ("boom".toList))).calls - 1)
          = .error msg ∧
        GemFail.extractionFailed = classifyFinalError msg ∧
        (GemFail.extractionFailed = GemFail.serviceBusy ↔ isTransient msg = true)) := by
  have htr : isTransient ("boom".toList) = false := by decide
  have hw : (callGeminiWithRetry (fun _ => Except.error ("boom".toList))).out
      = Except.error GemFail.extractionFailed := by
    rw [callGeminiWithRetry,
      runRetryFrom_stop (fun _ => Except.error ("boom".toList)) 0 (by decide)
        ("boom".toList) rfl htr]
    unfold classifyFinalError
    rw [htr]
    simp
  exact ⟨hw, claim_C3 _ _ hw⟩

/-- Claim C6: a zero-page document fails with the invalid-document error
before any extraction call; the chunk loop produces exactly
ceil(N / 20) chunks with page ranges [20j, min(20j + 20, N)) in order
(hence contiguous, non-overlapping and covering); and a 45-page document
with all-successful extraction makes exactly 3 extraction calls. -/
theorem claim_C6 :
    (∀ respond, convertPdfToCsv 0 respond = ⟨0, .error .invalidDocument⟩) ∧
    (∀ N : Nat, chunkLoop N 0 = (List.range ((N + CHUNK_SIZE - 1) / CHUNK_SIZE)).map
      (fun j => (CHUNK_SIZE * j, min (CHUNK_SIZE * j + CHUNK_SIZE) N))) ∧
    (∀ respond, (∀ j, ∃ t, respond j 0 = Except.ok t) →
      (convertPdfToCsv 45 respond).clientCalls = 3) := by
  refine ⟨convertPdf_zero, chunkLoop_zero_formula, ?_⟩
  intro respond hall
  obtain ⟨frags, hcr⟩ := runChunks_calls_ok0 respond hall (chunkLoop 45 0) 0
  rw [convertPdf_ok 45 respond (by decide) _ frags hcr]
  have hlen3 : (chunkLoop 45 0).length = 3 := by
    rw [chunkLoop_go 45 0 (by decide), chunkLoop_go 45 _ (by decide),
      chunkLoop_go 45 _ (by decide), chunkLoop_stop 45 _ (by decide)]
    rfl
  split_ifs <;> simpa using hlen3

/-- Witness for claim C6: with every chunk succeeding immediately, a
45-page document makes exactly 3 extraction calls. -/
theorem claim_C6_witness :
    (∀ j : Nat, ∃ t, (fun (_ _ : Nat) => Except.ok ("y".toList)
      : Nat → Nat → Except JStr JStr) j 0 = Except.ok t) ∧
    (convertPdfToCsv 45 (fun _ _ => Except.ok ("y".toList))).clientCalls = 3 :=
  ⟨fun _ => ⟨"y".toList, rfl⟩, claim_C6.2.2 _ (fun _ => ⟨"y".toList, rfl⟩)⟩

/-- Claim C7: a successful response is returned with surrounding
code-fence markup removed and whitespace trimmed and nothing else — the
success path returns the fence-strip of the response text, the
fence-strip coincides with the spec-side staged description, every
successful client result is the fence-strip of some attempt's response,
and an unfenced response is returned merely trimmed. -/
theorem claim_C7 :
    (∀ t, stripFence t = specFenceStrip t) ∧
    (∀ respond t, respond 0 = Except.ok t →
      (callGeminiWithRetry respond).out = Except.ok (stripFence t)) ∧
    (∀ respond u, (callGeminiWithRetry respond).out = Except.ok u →
      ∃ k t, respond k = Except.ok t ∧ u = stripFence t) ∧
    (∀ t, ("```".toList : JStr).isPrefixOf t = false →
      ("```".toList : JStr).isSuffixOf t = false → stripFence t = trimWS t) := by
  refine ⟨stripFence_eq_spec, ?_, ?_, stripFence_verbatim⟩
  · intro respond t h
    rw [callGeminiWithRetry, runRetryFrom_ok respond 0 (by decide) t h]
  · intro respond u h
    rcases runRetry_total respond with ⟨t, h0, hcase⟩ | ⟨m, h0, htr, hcase⟩ |
      ⟨m, t, h0, htr, h1, hcase⟩ | ⟨m0, m1, h0, htr0, h1, htr1, hcase⟩ |
      ⟨m0, m1, t, h0, htr0, h1, htr1, h2, hcase⟩ |
      ⟨m0, m1, m2, h0, htr0, h1, htr1, h2, hcase⟩
    · rw [hcase] at h
      simp only [Except.ok.injEq] at h
      exact ⟨0, t, h0, h.symm⟩
    · rw [hcase] at h
      simp at h
    · rw [hcase] at h
      simp only [Except.ok.injEq] at h
      exact ⟨1, t, h1, h.symm⟩
    · rw [hcase] at h
      simp at h
    · rw [hcase] at h
      simp only [Except.ok.injEq] at h
      exact ⟨2, t, h2, h.symm⟩
    · rw [hcase] at h
      simp at h

/-- Witness for claim C7: a fenced response is returned fence-stripped. -/
theorem claim_C7_witness :
    ((fun _ => Except.ok ("```csv\nA,B\n```".toList) : Nat → Except JStr JStr) 0
      = Except.ok ("```csv\nA,B\n```".toList)) ∧
    (callGeminiWithRetry (fun _ => Except.ok ("```csv\nA,B\n```".toList))).out
      = Except.ok (stripFence ("```csv\nA,B\n```".toList)) :=
  ⟨rfl, claim_C7.2.1 _ _ rfl⟩

/-- Claim C9: the pipeline fails with the empty-result error exactly
when the chunking succeeded, every extraction succeeded, and the merged
output has fewer than 2 lines; and in that case no CSV string is
returned. -/
theorem claim_C9 (pageCount : Nat) (respond : Nat → Nat → Except JStr JStr) :
    ((convertPdfToCsv pageCount respond).out = Except.error PipeError.emptyResult ↔
      (pageCount ≠ 0 ∧ ∃ frags,
        (runChunks respond (chunkLoop pageCount 0) 0).out = Except.ok frags ∧
        (mergeFragments frags).length < 2)) ∧
    (∀ s, (convertPdfToCsv pageCount respond).out = Except.error PipeError.emptyResult →
      (convertPdfToCsv pageCount respond).out ≠ Except.ok s) := by
  constructor
  · by_cases h0 : pageCount = 0
    · subst h0
      rw [convertPdf_zero]
      constructor
      · intro h
        simp at h
      · rintro ⟨hne, _⟩
        exact absurd rfl hne
    · rcases hcr : runChunks respond (chunkLoop pageCount 0) 0 with ⟨n, out⟩
      rcases out with e | frags
      · rw [convertPdf_err pageCount respond h0 n e hcr]
        constructor
        · intro h
          exfalso
          cases e <;> simp [liftGemFail] at h
        · rintro ⟨_, frags, hfr, _⟩
          simp at hfr
      · rw [convertPdf_ok pageCount respond h0 n frags hcr]
        by_cases h2 : (mergeFragments frags).length < 2
        · rw [if_pos h2]
          constructor
          · intro _
            exact ⟨h0, frags, rfl, h2⟩
          · intro _
            rfl
        · rw [if_neg h2]
          constructor
          · intro h
            simp at h
          · rintro ⟨_, frags2, hfr2, hlen2⟩
            simp at hfr2
            subst hfr2
            exact absurd hlen2 h2
  · intro s h hok
    rw [h] at hok
    simp at hok

/-- Evaluation helper: one chunk whose extraction returns empty text
yields an empty fragment list. -/
theorem runChunks_emptyOk_eval :
    runChunks (fun _ _ => Except.ok ([] : JStr)) (chunkLoop 1 0) 0 = ⟨1, .ok []⟩ := by
  have hchunk : chunkLoop 1 0 = [(0, min (0 + CHUNK_SIZE) 1)] := by
    rw [chunkLoop_go 1 0 (by decide), chunkLoop_stop 1 _ (by decide)]
  have hcall : (callGeminiWithRetry ((fun (_ _ : Nat) => Except.ok ([] : JStr)) 0)).out
      = Except.ok (stripFence ([] : JStr)) := by
    rw [callGeminiWithRetry, runRetryFrom_ok _ 0 (by decide) ([] : JStr) rfl]
  rw [hchunk]
  unfold runChunks
  rw [hcall]
  simp [show stripFence ([] : JStr) = ([] : JStr) from by decide, runChunks]

/-- Witness for claim C9: a 1-page document whose single extraction
returns empty text surfaces the empty-result error. -/
theorem claim_C9_witness :
    (convertPdfToCsv 1 (fun _ _ => Except.ok ([] : JStr))).out
      = Except.error PipeError.emptyResult := by
  apply (claim_C9 1 (fun _ _ => Except.ok ([] : JStr))).1.mpr
  exact ⟨by decide, [], by rw [runChunks_emptyOk_eval], by decide⟩

/-- Claim C10: when every chunk's extraction succeeds, the fragment list
is exactly the per-chunk (fence-stripped) texts with the empty ones
dropped, so an empty-text chunk contributes nothing; the merged output
starts with the lines of the first non-empty fragment; and if every
chunk returns empty text the pipeline surfaces the empty-result error. -/
theorem claim_C10 (respond : Nat → Nat → Except JStr JStr) (N : Nat) (ts : List JStr)
    (hN : N ≠ 0) (hlen : ts.length = (chunkLoop N 0).length)
    (hok : ∀ k (hk : k < ts.length),
      (callGeminiWithRetry (respond k)).out = Except.ok (ts.get ⟨k, hk⟩)) :
    (runChunks respond (chunkLoop N 0) 0).out
      = Except.ok (ts.filter (fun t => !t.isEmpty)) ∧
    (∀ f fs, ts.filter (fun t => !t.isEmpty) = f :: fs →
      ∃ tail, mergeFragments (ts.filter (fun t => !t.isEmpty)) = fragLines f ++ tail) ∧
    ((∀ t ∈ ts, t.isEmpty = true) →
      (convertPdfToCsv N respond).out = Except.error PipeError.emptyResult) := by
  have hok0 : ∀ k (hk : k < ts.length),
      (callGeminiWithRetry (respond (0 + k))).out = Except.ok (ts.get ⟨k, hk⟩) := by
    intro k hk
    rw [Nat.zero_add]
    exact hok k hk
  have hrc := runChunks_all_ok respond (chunkLoop N 0) 0 ts hlen hok0
  refine ⟨by rw [hrc], ?_, ?_⟩
  · intro f fs heq
    rw [heq, mergeFragments_eq_spec]
    exact ⟨_, rfl⟩
  · intro hall
    have hfilt : ts.filter (fun t => !t.isEmpty) = [] := by
      rw [List.filter_eq_nil_iff]
      intro a ha
      simp [hall a ha]
    have hcr : runChunks respond (chunkLoop N 0) 0 = ⟨(chunkLoop N 0).length, .ok []⟩ := by
      rw [hrc, hfilt]
    rw [convertPdf_ok N respond hN _ [] hcr,
      if_pos (show (mergeFragments []).length < 2 from by decide)]

/-- Witness for claim C10: a 1-page document with one empty-text chunk
gives an empty fragment list and the empty-result error. -/
theorem claim_C10_witness :
    ((1 : Nat) ≠ 0) ∧
    (([([] : JStr)] : List JStr).length = (chunkLoop 1 0).length) ∧
    (∀ k (hk : k < ([([] : JStr)] : List JStr).length),
      (callGeminiWithRetry ((fun _ _ => Except.ok ([] : JStr)) k)).out
        = Except.ok (([([] : JStr)] : List JStr).get ⟨k, hk⟩)) ∧
    (convertPdfToCsv 1 (fun _ _ => Except.ok ([] : JStr))).out
      = Except.error PipeError.emptyResult := by
  have hchunklen : (chunkLoop 1 0).length = 1 := by
    rw [chunkLoop_go 1 0 (by decide), chunkLoop_stop 1 _ (by decide)]
    rfl
  have hlen : ([([] : JStr)] : List JStr).length = (chunkLoop 1 0).length := by
    simp [hchunklen]
  have hok : ∀ k (hk : k < ([([] : JStr)] : List JStr).length),
      (callGeminiWithRetry ((fun _ _ => Except.ok ([] : JStr)) k)).out
        = Except.ok (([([] : JStr)] : List JStr).get ⟨k, hk⟩) := by
    intro k hk
    have hk0 : k = 0 := by simpa using hk
    subst hk0
    rw [callGeminiWithRetry, runRetryFrom_ok _ 0 (by decide) ([] : JStr) rfl]
    simp [show stripFence ([] : JStr) = ([] : JStr) from by decide]
  have hall : ∀ t ∈ ([([] : JStr)] : List JStr), t.isEmpty = true := by
    intro t ht
    simp at ht
    subst ht
    rfl
  exact ⟨by decide, hlen, hok,
    (claim_C10 (fun _ _ => Except.ok ([] : JStr)) 1 [([] : JStr)] (by decide) hlen hok).2.2 hall⟩

end Runsheets
